import Mathlib

/-
Shallow embedding of src/sessions/session04_FSDP/ch023_t5_FSDP.py.

The script spawns one process per device; each process runs `main`, which
calls `find_max_batch_size` (bootstrap process group, initialize model,
linear batch-size probe, teardown) and then `train` (bootstrap, initialize
model, training loop, teardown).  The probe attempts one forward/backward
pass per candidate batch size; the outcome of such an attempt is external
to the script (it depends on device memory), so it is modelled by an
oracle `att : Nat → StepOutcome` mapping a batch size to the outcome the
runtime would produce for it in this run.  Python exceptions are modelled
by `PyExc`; the `while` loop is modelled with explicit fuel, a run that
does not terminate within the fuel yielding `none`.
-/

namespace FSDPWork

/-- Exceptions of the Python runtime as the script distinguishes them: a
`RuntimeError` carrying its message (`except RuntimeError as e` catches
exactly this class), and an exception of any other class, also carrying
its message. -/
inductive PyExc where
  | runtimeError (msg : String)
  | otherError (msg : String)
deriving DecidableEq, Repr

/-- Outcome of one attempted forward/backward pass at a given batch size:
the pass either completes or raises an exception. -/
inductive StepOutcome where
  | success
  | raise (e : PyExc)
deriving DecidableEq, Repr

/-- The literal the probe searches for in the exception message
(`"CUDA out of memory" in str(e)` at ch023_t5_FSDP.py:81). -/
def oomNeedle : String := "CUDA out of memory"

/-- Char-list test that `needle` is an initial segment of `hay`. -/
def leadMatch : List Char → List Char → Bool
  | [], _ => true
  | _ :: _, [] => false
  | c :: cs, d :: ds => c == d && leadMatch cs ds

/-- Char-list test that `needle` occurs contiguously somewhere in `hay`. -/
def occursIn (needle : List Char) : List Char → Bool
  | [] => leadMatch needle []
  | d :: ds => leadMatch needle (d :: ds) || occursIn needle ds

/-- Substring test modelling Python's `needle in hay` on strings. -/
def strContains (hay needle : String) : Bool :=
  occursIn needle.data hay.data

/-- The probe's error discrimination (ch023_t5_FSDP.py:80-86): an exception
ends the loop gracefully exactly when it is a `RuntimeError` whose message
contains `"CUDA out of memory"`; the `except` clause never sees any other
class, and a `RuntimeError` without the substring is re-raised. -/
def isOOM : PyExc → Bool
  | PyExc.runtimeError msg => strContains msg oomNeedle
  | PyExc.otherError _ => false

/-- The `while batch_size <= max_batch_size` loop of `find_max_batch_size`
(ch023_t5_FSDP.py:67-86), with state (`batch_size`, `success_batch_size`)
passed explicitly and fuel making termination explicit: on a successful
attempt `success_batch_size` becomes the attempted size and the candidate
grows by `step`; on an out-of-memory `RuntimeError` the loop breaks and
the last successful size is returned; any other exception propagates. -/
def probeLoop (att : Nat → StepOutcome) (maxBS step : Nat) :
    Nat → Nat → Nat → Option (Except PyExc Nat)
  | 0, _, _ => none
  | fuel + 1, bs, succBS =>
    if bs ≤ maxBS then
      match att bs with
      | StepOutcome.success => probeLoop att maxBS step fuel (bs + step) bs
      | StepOutcome.raise e =>
        if isOOM e then some (Except.ok succBS) else some (Except.error e)
    else
      some (Except.ok succBS)

/-- Result of `find_max_batch_size` (ch023_t5_FSDP.py:51-89): the loop is
entered with `batch_size = success_batch_size = start_batch_size`;
`Except.ok` is a normal return of `success_batch_size`, `Except.error` a
propagated exception. -/
def find_max_batch_size (att : Nat → StepOutcome)
    (fuel startBS maxBS step : Nat) : Option (Except PyExc Nat) :=
  probeLoop att maxBS step fuel startBS startBS

/-- Operations a process performs, at the granularity the control-flow
claims speak of: `dist.init_process_group`, `initialize_model`, the
batch-size probe loop, `dist.destroy_process_group`, and the training
loop. -/
inductive Phase where
  | initPG
  | initModel
  | probe
  | destroyPG
  | trainLoop
deriving DecidableEq, Repr

/-- Trace and result of one call of `find_max_batch_size`
(ch023_t5_FSDP.py:51-89): init the group (line 52), initialize the model
(line 60), run the probe loop (lines 67-86); `dist.destroy_process_group`
(line 88) runs only when the loop completes without an exception
propagating. -/
def find_max_batch_size_run (att : Nat → StepOutcome)
    (fuel startBS maxBS step : Nat) :
    Option (List Phase × Except PyExc Nat) :=
  match probeLoop att maxBS step fuel startBS startBS with
  | none => none
  | some (Except.ok v) =>
    some ([Phase.initPG, Phase.initModel, Phase.probe, Phase.destroyPG],
      Except.ok v)
  | some (Except.error e) =>
    some ([Phase.initPG, Phase.initModel, Phase.probe], Except.error e)

set_option linter.unusedVariables false in
/-- Trace and result of one call of `train` (ch023_t5_FSDP.py:93-122): init
the group (line 94), initialize the model (line 102), run the epoch/batch
loop (lines 110-120), and destroy the group (line 122) only when the loop
completes normally.  Whether the loop raises is external (device, data),
so it is a parameter `trainRes`; `batch_size` is the size trained at. -/
def trainRun (batch_size : Nat) (trainRes : Except PyExc Unit) :
    List Phase × Except PyExc Unit :=
  match trainRes with
  | Except.ok _ =>
    ([Phase.initPG, Phase.initModel, Phase.trainLoop, Phase.destroyPG],
      Except.ok ())
  | Except.error e =>
    ([Phase.initPG, Phase.initModel, Phase.trainLoop], Except.error e)

/-- What one spawned process did: the phases it executed in order, the
batch size `train` was entered with (`none` when the probe raised before
training started), and how the process ended. -/
structure MainRun where
  trace : List Phase
  trainedWith : Option Nat
  result : Except PyExc Unit
deriving Repr

/-- One spawned process executing `main` (ch023_t5_FSDP.py:126-133): run
`find_max_batch_size`, then `train` at the returned size; an exception
from the probe propagates out of `main` and training never starts. -/
def mainRun (att : Nat → StepOutcome) (fuel startBS maxBS step : Nat)
    (trainRes : Except PyExc Unit) : Option MainRun :=
  match find_max_batch_size_run att fuel startBS maxBS step with
  | none => none
  | some (tr, Except.error e) =>
    some { trace := tr, trainedWith := none, result := Except.error e }
  | some (tr, Except.ok v) =>
    match trainRun v trainRes with
    | (tr2, r2) =>
      some { trace := tr ++ tr2, trainedWith := some v, result := r2 }

/-- One draw of `torch.randint(0, numTokens, ...)` for a single entry,
modelled over an arbitrary deterministic generator-step function
`next : Nat → Nat` on generator states: advance the state and reduce the
drawn word into `[0, numTokens)`. -/
def randNat (next : Nat → Nat) (numTokens g : Nat) : Nat × Nat :=
  let g1 := next g
  (g1 % numTokens, g1)

/-- A row of `len` draws in `[0, numTokens)`, threading the generator
state left to right. -/
def randRow (next : Nat → Nat) (numTokens : Nat) :
    Nat → Nat → List Nat × Nat
  | 0, g => ([], g)
  | len + 1, g =>
    let xg := randNat next numTokens g
    let rest := randRow next numTokens len xg.2
    (xg.1 :: rest.1, rest.2)

/-- `torch.randint(0, numTokens, size=(rows, len))`: a `rows × len` matrix
of draws in `[0, numTokens)`, threading the generator state. -/
def randMatrix (next : Nat → Nat) (numTokens : Nat) :
    Nat → Nat → Nat → List (List Nat) × Nat
  | 0, _, g => ([], g)
  | rows + 1, len, g =>
    let rg := randRow next numTokens len g
    let rest := randMatrix next numTokens rows len rg.2
    (rg.1 :: rest.1, rest.2)

/-- The state of a `DummyDataset` object (ch023_t5_FSDP.py:22-39): the
stored sample count and the three token matrices drawn in `__init__`. -/
structure DummyDataset where
  num_samples : Nat
  input_ids : List (List Nat)
  decoder_input_ids : List (List Nat)
  labels : List (List Nat)
deriving DecidableEq, Repr

set_option linter.unusedVariables false in
/-- `DummyDataset.__init__` (ch023_t5_FSDP.py:23-29) over an ambient
global generator state `g` (torch's global RNG): `torch.manual_seed(seed)`
replaces the ambient state by one determined by the seed alone, then the
three `torch.randint` calls draw `(num_samples, max_len)` matrices in
`[0, num_tokens)`, threading the global state.  Returns the constructed
object and the final global state. -/
def DummyDataset.init (next : Nat → Nat) (g : Nat)
    (num_samples num_tokens max_len seed : Nat) : DummyDataset × Nat :=
  let g0 := seed
  let r1 := randMatrix next num_tokens num_samples max_len g0
  let r2 := randMatrix next num_tokens num_samples max_len r1.2
  let r3 := randMatrix next num_tokens num_samples max_len r2.2
  ({ num_samples := num_samples, input_ids := r1.1,
     decoder_input_ids := r2.1, labels := r3.1 }, r3.2)

/-- `DummyDataset.__len__` (ch023_t5_FSDP.py:31-32). -/
def DummyDataset.len (d : DummyDataset) : Nat := d.num_samples

/-- The dictionary `__getitem__` returns: exactly the keys `input_ids`,
`decoder_input_ids` and `labels`, each holding one row. -/
structure Item where
  input_ids : List Nat
  decoder_input_ids : List Nat
  labels : List Nat
deriving DecidableEq, Repr

/-- `DummyDataset.__getitem__` (ch023_t5_FSDP.py:34-39): row `idx` of each
stored matrix. -/
def DummyDataset.getitem (d : DummyDataset) (idx : Nat) : Item :=
  { input_ids := d.input_ids.getD idx [],
    decoder_input_ids := d.decoder_input_ids.getD idx [],
    labels := d.labels.getD idx [] }

/-- A run in which feasibility is a monotone threshold on batch size: every
size below the bound `T` fits, every size at or above it raises the
out-of-memory `RuntimeError`. -/
def monoAttempt (T : Nat) : Nat → StepOutcome := fun b =>
  if b < T then StepOutcome.success
  else StepOutcome.raise (PyExc.runtimeError oomNeedle)

deriving instance DecidableEq for Except

/-- Soundness of the probe loop on the normal-return path: a run of
`probeLoop` from state (`bs`, `succBS`) that returns `v` normally did so
after some number `n` of consecutive successful attempts at the candidate
sizes `bs`, `bs + step`, ..., all within the cap, stopped because the next
candidate either exceeded the cap or raised an out-of-memory error, and
`v` is the last successful candidate (the incoming `succBS` when `n = 0`). -/
theorem probeLoop_ok_char (att : Nat → StepOutcome) (maxBS step : Nat) :
    ∀ (fuel bs succBS v : Nat),
      probeLoop att maxBS step fuel bs succBS = some (Except.ok v) →
      ∃ n : Nat,
        (∀ j, j < n →
          bs + j * step ≤ maxBS ∧ att (bs + j * step) = StepOutcome.success)
        ∧ (maxBS < bs + n * step
            ∨ (bs + n * step ≤ maxBS
               ∧ ∃ e, att (bs + n * step) = StepOutcome.raise e
                  ∧ isOOM e = true))
        ∧ v = if n = 0 then succBS else bs + (n - 1) * step := by
  intro fuel
  induction fuel with
  | zero =>
    intro bs succBS v h
    simp [probeLoop] at h
  | succ fuel ih =>
    intro bs succBS v h
    simp only [probeLoop] at h
    by_cases hbs : bs ≤ maxBS
    · rw [if_pos hbs] at h
      cases hatt : att bs with
      | success =>
        rw [hatt] at h
        obtain ⟨n, hlead, hterm, hv⟩ := ih (bs + step) bs v h
        refine ⟨n + 1, ?_, ?_, ?_⟩
        · intro j hj
          cases j with
          | zero => simpa using ⟨hbs, hatt⟩
          | succ j' =>
            obtain ⟨h1, h2⟩ := hlead j' (by omega)
            have harith : bs + step + j' * step = bs + (j' + 1) * step := by
              rw [Nat.succ_mul]; omega
            rw [harith] at h1 h2
            exact ⟨h1, h2⟩
        · have harith : bs + step + n * step = bs + (n + 1) * step := by
            rw [Nat.succ_mul]; omega
          rw [harith] at hterm
          exact hterm
        · cases n with
          | zero => simpa using hv
          | succ m =>
            simp only [Nat.succ_ne_zero, if_false, Nat.succ_sub_one] at hv ⊢
            rw [hv, Nat.succ_mul]
            omega
      | raise e =>
        rw [hatt] at h
        have h2 : (if isOOM e = true then some (Except.ok succBS)
            else some (Except.error e)) = some (Except.ok v) := h
        by_cases hoom : isOOM e = true
        · rw [if_pos hoom] at h2
          refine ⟨0, by omega,
            Or.inr ⟨by simpa using hbs, e, by simpa using hatt, hoom⟩, ?_⟩
          simp at h2
          simp [h2]
        · rw [if_neg hoom] at h2
          simp at h2
    · rw [if_neg hbs] at h
      simp at h
      exact ⟨0, by omega, Or.inl (by omega), by simp [h]⟩

/-- Soundness of the probe loop on the exception path: a run of
`probeLoop` that ends with exception `e` saw some number `n` of
consecutive successful attempts within the cap, after which the next
candidate size was still within the cap, its attempt raised exactly `e`,
and `e` is not an out-of-memory `RuntimeError`. -/
theorem probeLoop_error_char (att : Nat → StepOutcome) (maxBS step : Nat) :
    ∀ (fuel bs succBS : Nat) (e : PyExc),
      probeLoop att maxBS step fuel bs succBS = some (Except.error e) →
      ∃ n : Nat,
        (∀ j, j < n →
          bs + j * step ≤ maxBS ∧ att (bs + j * step) = StepOutcome.success)
        ∧ bs + n * step ≤ maxBS
        ∧ att (bs + n * step) = StepOutcome.raise e
        ∧ isOOM e = false := by
  intro fuel
  induction fuel with
  | zero =>
    intro bs succBS e h
    simp [probeLoop] at h
  | succ fuel ih =>
    intro bs succBS e h
    simp only [probeLoop] at h
    by_cases hbs : bs ≤ maxBS
    · rw [if_pos hbs] at h
      cases hatt : att bs with
      | success =>
        rw [hatt] at h
        obtain ⟨n, hlead, hcap, hraise, hoom⟩ := ih (bs + step) bs e h
        refine ⟨n + 1, ?_, ?_, ?_, hoom⟩
        · intro j hj
          cases j with
          | zero => simpa using ⟨hbs, hatt⟩
          | succ j' =>
            obtain ⟨h1, h2⟩ := hlead j' (by omega)
            have harith : bs + step + j' * step = bs + (j' + 1) * step := by
              rw [Nat.succ_mul]; omega
            rw [harith] at h1 h2
            exact ⟨h1, h2⟩
        · have harith : bs + step + n * step = bs + (n + 1) * step := by
            rw [Nat.succ_mul]; omega
          rw [harith] at hcap
          exact hcap
        · have harith : bs + step + n * step = bs + (n + 1) * step := by
            rw [Nat.succ_mul]; omega
          rw [harith] at hraise
          exact hraise
      | raise e' =>
        rw [hatt] at h
        have h2 : (if isOOM e' = true then some (Except.ok succBS)
            else some (Except.error e')) = some (Except.error e) := h
        by_cases hoom : isOOM e' = true
        · rw [if_pos hoom] at h2
          simp at h2
        · rw [if_neg hoom] at h2
          simp at h2
          subst h2
          refine ⟨0, by omega, by simpa using hbs, by simpa using hatt,
            by simpa using hoom⟩
    · rw [if_neg hbs] at h
      simp at h

/-- Completeness direction: after `n` successful attempts within the cap,
the probe loop is at candidate `bs + n * step` with the last success
recorded, having spent `n` units of fuel. -/
theorem probeLoop_reaches (att : Nat → StepOutcome) (maxBS step : Nat) :
    ∀ (n fuel bs succBS : Nat), n ≤ fuel →
      (∀ j, j < n →
        bs + j * step ≤ maxBS ∧ att (bs + j * step) = StepOutcome.success) →
      probeLoop att maxBS step fuel bs succBS =
        probeLoop att maxBS step (fuel - n) (bs + n * step)
          (if n = 0 then succBS else bs + (n - 1) * step) := by
  intro n
  induction n with
  | zero =>
    intro fuel bs succBS _ _
    simp
  | succ m ih =>
    intro fuel bs succBS hfuel hlead
    cases fuel with
    | zero => omega
    | succ f =>
      have hbs : bs ≤ maxBS := by
        have := (hlead 0 (by omega)).1
        simpa using this
      have hsucc : att bs = StepOutcome.success := by
        have := (hlead 0 (by omega)).2
        simpa using this
      have hstep : probeLoop att maxBS step (f + 1) bs succBS
          = probeLoop att maxBS step f (bs + step) bs := by
        simp only [probeLoop]
        rw [if_pos hbs, hsucc]
      rw [hstep]
      have hlead' : ∀ j, j < m →
          bs + step + j * step ≤ maxBS
          ∧ att (bs + step + j * step) = StepOutcome.success := by
        intro j hj
        obtain ⟨h1, h2⟩ := hlead (j + 1) (by omega)
        have harith : bs + (j + 1) * step = bs + step + j * step := by
          rw [Nat.succ_mul]; omega
        rw [harith] at h1 h2
        exact ⟨h1, h2⟩
      rw [ih f (bs + step) bs (by omega) hlead']
      have e1 : f - m = f + 1 - (m + 1) := by omega
      have e2 : bs + step + m * step = bs + (m + 1) * step := by
        rw [Nat.succ_mul]; omega
      have e3 : (if m = 0 then bs else bs + step + (m - 1) * step)
          = if m + 1 = 0 then succBS else bs + (m + 1 - 1) * step := by
        cases m with
        | zero => simp
        | succ k =>
          simp only [Nat.succ_ne_zero, if_false, Nat.succ_sub_one]
          rw [Nat.succ_mul]
          omega
      rw [e1, e2, e3]

/-- The recorded success size never exceeds the cap while the loop runs:
if the loop is entered with `succBS ≤ maxBS` and returns normally, the
returned value is at most `maxBS`. -/
theorem probeLoop_le_max (att : Nat → StepOutcome) (maxBS step : Nat) :
    ∀ (fuel bs succBS v : Nat), succBS ≤ maxBS →
      probeLoop att maxBS step fuel bs succBS = some (Except.ok v) →
      v ≤ maxBS := by
  intro fuel
  induction fuel with
  | zero =>
    intro bs succBS v _ h
    simp [probeLoop] at h
  | succ f ih =>
    intro bs succBS v hle h
    simp only [probeLoop] at h
    by_cases hbs : bs ≤ maxBS
    · rw [if_pos hbs] at h
      cases hatt : att bs with
      | success =>
        rw [hatt] at h
        exact ih _ _ _ hbs h
      | raise e =>
        rw [hatt] at h
        have h2 : (if isOOM e = true then some (Except.ok succBS)
            else some (Except.error e)) = some (Except.ok v) := h
        by_cases hoom : isOOM e = true
        · rw [if_pos hoom] at h2
          simp at h2
          omega
        · rw [if_neg hoom] at h2
          simp at h2
    · rw [if_neg hbs] at h
      simp at h
      omega

/-- Every row drawn by `randRow` has the requested length and all its
entries lie below `numTokens`. -/
theorem randRow_spec (next : Nat → Nat) (numTokens : Nat)
    (htok : 0 < numTokens) :
    ∀ (len g : Nat),
      (randRow next numTokens len g).1.length = len
      ∧ ∀ x ∈ (randRow next numTokens len g).1, x < numTokens := by
  intro len
  induction len with
  | zero =>
    intro g
    simp [randRow]
  | succ l ih =>
    intro g
    simp only [randRow, randNat]
    constructor
    · simpa using (ih (next g)).1
    · intro x hx
      simp only [List.mem_cons] at hx
      rcases hx with hx | hx
      · subst hx
        exact Nat.mod_lt _ htok
      · exact (ih (next g)).2 x hx

/-- Every matrix drawn by `randMatrix` has the requested number of rows,
and every row has the requested length with all entries below
`numTokens`. -/
theorem randMatrix_spec (next : Nat → Nat) (numTokens : Nat)
    (htok : 0 < numTokens) :
    ∀ (rows len g : Nat),
      (randMatrix next numTokens rows len g).1.length = rows
      ∧ ∀ row ∈ (randMatrix next numTokens rows len g).1,
          row.length = len ∧ ∀ x ∈ row, x < numTokens := by
  intro rows
  induction rows with
  | zero =>
    intro len g
    simp [randMatrix]
  | succ r ih =>
    intro len g
    simp only [randMatrix]
    constructor
    · simpa using (ih len _).1
    · intro row hrow
      simp only [List.mem_cons] at hrow
      rcases hrow with hrow | hrow
      · subst hrow
        exact ⟨(randRow_spec next numTokens htok len g).1,
          (randRow_spec next numTokens htok len g).2⟩
      · exact (ih len _).2 row hrow

/-- `List.getD` at an in-range index returns an element of the list. -/
theorem getD_mem_of_lt {α : Type} (l : List α) (i : Nat) (d : α)
    (h : i < l.length) : l.getD i d ∈ l := by
  rw [List.getD_eq_getElem?_getD, List.getElem?_eq_getElem h]
  simp only [Option.getD_some]
  exact List.getElem_mem h

/-- C2: `find_max_batch_size` implements exactly the linear search of the
spec.  Whenever a run ends, its outcome is characterized by the number `n`
of leading successful attempts at the candidates `start`, `start + step`,
...: on a normal return the value is the last successful candidate (the
floor when `n = 0`) and the run stopped because the next candidate
exceeded the cap or raised an out-of-memory error; on an exceptional
return, the first non-successful candidate raised exactly the propagated
exception, which is not an out-of-memory error.  Conversely, a prefix of
`n` in-cap successes followed by a cap overrun or a raising attempt
forces exactly that outcome. -/
theorem find_max_batch_size_algorithm (att : Nat → StepOutcome)
    (fuel startBS maxBS step : Nat) (r : Except PyExc Nat)
    (h : find_max_batch_size att fuel startBS maxBS step = some r) :
    (∀ v, r = Except.ok v →
      ∃ n : Nat,
        (∀ j, j < n → startBS + j * step ≤ maxBS
          ∧ att (startBS + j * step) = StepOutcome.success)
        ∧ (maxBS < startBS + n * step
            ∨ (startBS + n * step ≤ maxBS
               ∧ ∃ e, att (startBS + n * step) = StepOutcome.raise e
                  ∧ isOOM e = true))
        ∧ v = startBS + (n - 1) * step)
    ∧ (∀ e, r = Except.error e →
      ∃ n : Nat,
        (∀ j, j < n → startBS + j * step ≤ maxBS
          ∧ att (startBS + j * step) = StepOutcome.success)
        ∧ startBS + n * step ≤ maxBS
        ∧ att (startBS + n * step) = StepOutcome.raise e
        ∧ isOOM e = false)
    ∧ (∀ n, n < fuel →
      (∀ j, j < n → startBS + j * step ≤ maxBS
        ∧ att (startBS + j * step) = StepOutcome.success) →
      (maxBS < startBS + n * step →
        r = Except.ok (startBS + (n - 1) * step))
      ∧ (∀ e, startBS + n * step ≤ maxBS →
          att (startBS + n * step) = StepOutcome.raise e →
          (isOOM e = true → r = Except.ok (startBS + (n - 1) * step))
          ∧ (isOOM e = false → r = Except.error e))) := by
  have hif : ∀ n : Nat,
      (if n = 0 then startBS else startBS + (n - 1) * step)
        = startBS + (n - 1) * step := by
    intro n
    cases n with
    | zero => simp
    | succ k => simp
  refine ⟨?_, ?_, ?_⟩
  · intro v hv
    rw [hv] at h
    obtain ⟨n, hlead, hterm, hval⟩ :=
      probeLoop_ok_char att maxBS step fuel startBS startBS v h
    exact ⟨n, hlead, hterm, by rw [hval, hif n]⟩
  · intro e he
    rw [he] at h
    exact probeLoop_error_char att maxBS step fuel startBS startBS e h
  · intro n hn hlead
    have hreach :=
      probeLoop_reaches att maxBS step n fuel startBS startBS (by omega) hlead
    have h2 : probeLoop att maxBS step (fuel - n) (startBS + n * step)
        (startBS + (n - 1) * step) = some r := by
      rw [← hif n, ← hreach]
      exact h
    obtain ⟨k, hk⟩ : ∃ k, fuel - n = k + 1 := ⟨fuel - n - 1, by omega⟩
    rw [hk] at h2
    simp only [probeLoop] at h2
    constructor
    · intro hover
      rw [if_neg (by omega)] at h2
      simp at h2
      exact h2.symm
    · intro e hcap hatt
      rw [if_pos hcap, hatt] at h2
      have h3 : (if isOOM e = true
          then some (Except.ok (startBS + (n - 1) * step))
          else some (Except.error e)) = some r := h2
      constructor
      · intro hoomT
        rw [if_pos hoomT] at h3
        simp at h3
        exact h3.symm
      · intro hoomF
        rw [if_neg (by simp [hoomF])] at h3
        simp at h3
        exact h3.symm

/-- Witness for C2: with a monotone threshold at 3, starting floor 1, cap
5 and stride 1, the probe returns normally with value 2, stopped by an
out-of-memory failure at candidate 3. -/
theorem find_max_batch_size_algorithm_witness :
    ∃ n : Nat,
      (∀ j, j < n → 1 + j * 1 ≤ 5
        ∧ monoAttempt 3 (1 + j * 1) = StepOutcome.success)
      ∧ (5 < 1 + n * 1
          ∨ (1 + n * 1 ≤ 5
             ∧ ∃ e, monoAttempt 3 (1 + n * 1) = StepOutcome.raise e
                ∧ isOOM e = true))
      ∧ 2 = 1 + (n - 1) * 1 :=
  (find_max_batch_size_algorithm (monoAttempt 3) 10 1 5 1
    (Except.ok 2) rfl).1 2 rfl

/-- Counterexample to C1 as stated: with a monotone memory threshold at
10 (sizes below 10 fit, sizes at or above 10 raise out-of-memory), floor
1, cap 1024 and stride 16, the probe returns 1, yet batch size 9 is
strictly greater than 1 and fits.  The stride skips over feasible sizes
between grid points, so the returned value need not be maximal among all
feasible sizes. -/
theorem find_max_batch_size_not_maximal :
    find_max_batch_size (monoAttempt 10) 200 1 1024 16
      = some (Except.ok 1)
    ∧ 1 < 9 ∧ monoAttempt 10 9 = StepOutcome.success :=
  ⟨rfl, by omega, rfl⟩

/-- C1 (amended): for every run under a monotone memory threshold, the
value returned by a normally-returning probe is maximal feasible among
the candidate sizes the search ranges over: no batch size on the stride
grid `start_batch_size + k * step` that is within the configured cap and
strictly greater than the returned value fits in device memory. -/
theorem find_max_batch_size_grid_maximal
    (T fuel startBS maxBS step v : Nat)
    (h : find_max_batch_size (monoAttempt T) fuel startBS maxBS step
      = some (Except.ok v)) :
    ∀ k : Nat, startBS + k * step ≤ maxBS → v < startBS + k * step →
      monoAttempt T (startBS + k * step) ≠ StepOutcome.success := by
  intro k hk hv hsucc
  have hkT : startBS + k * step < T := by
    by_contra hkT'
    simp [monoAttempt, hkT'] at hsucc
  obtain ⟨n, hlead, hterm, hval⟩ :=
    probeLoop_ok_char (monoAttempt T) maxBS step fuel startBS startBS v h
  have hsn : startBS + k * step < startBS + n * step := by
    rcases hterm with hover | ⟨hcap, e, hraise, hoomE⟩
    · omega
    · have hTn : ¬ (startBS + n * step < T) := by
        intro hlt
        simp [monoAttempt, hlt] at hraise
      omega
  have hkn : k < n := by
    by_contra hkn'
    push_neg at hkn'
    have := Nat.mul_le_mul_right step hkn'
    omega
  have hmul : k * step ≤ (n - 1) * step :=
    Nat.mul_le_mul_right step (by omega)
  have hvval : v = startBS + (n - 1) * step := by
    cases n with
    | zero => omega
    | succ m => simpa using hval
  omega

/-- Witness for the amended C1: in the threshold-10 run above the probe
returns 1, and candidate 1 + 1 * 16 = 17 lies within the cap 1024, is
above the returned value, and indeed does not fit. -/
theorem find_max_batch_size_grid_maximal_witness :
    monoAttempt 10 (1 + 1 * 16) ≠ StepOutcome.success :=
  find_max_batch_size_grid_maximal 10 200 1 1024 16 1 rfl 1
    (by omega) (by omega)

/-- Counterexample to C3 as stated: with floor 2 above cap 1 the loop
body never runs and the probe returns the floor 2, which exceeds the
configured maximum 1 (for any outcome pattern; here every attempt would
succeed). -/
theorem find_max_batch_size_above_cap :
    find_max_batch_size (fun _ => StepOutcome.success) 10 2 1 1
      = some (Except.ok 2)
    ∧ ¬ (2 ≤ 1) :=
  ⟨rfl, by omega⟩

/-- C3 (amended): whenever the floor does not exceed the cap — as in
every configuration the script constructs — any normally returned value
of `find_max_batch_size` is at most the configured maximum, for every
attempt-outcome pattern. -/
theorem find_max_batch_size_le_max (att : Nat → StepOutcome)
    (fuel startBS maxBS step v : Nat) (hstart : startBS ≤ maxBS)
    (h : find_max_batch_size att fuel startBS maxBS step
      = some (Except.ok v)) :
    v ≤ maxBS :=
  probeLoop_le_max att maxBS step fuel startBS startBS v hstart h

/-- Witness for the amended C3: the threshold-3 run with floor 1 and cap
5 returns 2, and 2 is at most 5. -/
theorem find_max_batch_size_le_max_witness :
    (1 : Nat) ≤ 5 ∧ (2 : Nat) ≤ 5 :=
  ⟨by omega, find_max_batch_size_le_max (monoAttempt 3) 10 1 5 1 2
    (by omega) rfl⟩

/-- C9: every value the probe returns normally lies on the stride grid
anchored at the floor: it equals `start_batch_size + k * step` for some
`k ≥ 0`. -/
theorem find_max_batch_size_on_grid (att : Nat → StepOutcome)
    (fuel startBS maxBS step v : Nat)
    (h : find_max_batch_size att fuel startBS maxBS step
      = some (Except.ok v)) :
    ∃ k : Nat, v = startBS + k * step := by
  obtain ⟨n, hlead, hterm, hval⟩ :=
    probeLoop_ok_char att maxBS step fuel startBS startBS v h
  cases n with
  | zero => exact ⟨0, by simpa using hval⟩
  | succ m => exact ⟨m, by simpa using hval⟩

/-- Witness for C9: the threshold-3 run with floor 1 and stride 1
returns 2, which is on the grid anchored at 1. -/
theorem find_max_batch_size_on_grid_witness :
    ∃ k : Nat, 2 = 1 + k * 1 :=
  find_max_batch_size_on_grid (monoAttempt 3) 10 1 5 1 2 rfl

/-- C10: when the very first attempted batch size raises out-of-memory
(no attempt ever succeeded), the probe still returns the floor
`start_batch_size`, and `main` then enters training with that unverified
size. -/
theorem first_oom_returns_floor (att : Nat → StepOutcome)
    (fuel startBS maxBS step : Nat) (e : PyExc)
    (tres : Except PyExc Unit)
    (hstart : startBS ≤ maxBS)
    (hatt : att startBS = StepOutcome.raise e)
    (hoom : isOOM e = true) :
    find_max_batch_size att (fuel + 1) startBS maxBS step
      = some (Except.ok startBS)
    ∧ ∃ m : MainRun,
        mainRun att (fuel + 1) startBS maxBS step tres = some m
        ∧ m.trainedWith = some startBS := by
  have hp : probeLoop att maxBS step (fuel + 1) startBS startBS
      = some (Except.ok startBS) := by
    simp only [probeLoop]
    rw [if_pos hstart, hatt]
    show (if isOOM e = true then some (Except.ok startBS)
      else some (Except.error e)) = some (Except.ok startBS)
    rw [if_pos hoom]
  refine ⟨hp, ?_⟩
  unfold mainRun find_max_batch_size_run
  rw [hp]
  cases tres with
  | ok u => exact ⟨_, rfl, rfl⟩
  | error e2 => exact ⟨_, rfl, rfl⟩

/-- Witness for C10: every attempt raises out-of-memory; with the
script's launch configuration (floor 2, cap 512, stride 32) the probe
reports 2 and `main` trains at 2. -/
theorem first_oom_returns_floor_witness :
    find_max_batch_size
        (fun _ => StepOutcome.raise (PyExc.runtimeError oomNeedle))
        10 2 512 32
      = some (Except.ok 2)
    ∧ ∃ m : MainRun,
        mainRun (fun _ => StepOutcome.raise (PyExc.runtimeError oomNeedle))
            10 2 512 32 (Except.ok ()) = some m
        ∧ m.trainedWith = some 2 :=
  first_oom_returns_floor
    (fun _ => StepOutcome.raise (PyExc.runtimeError oomNeedle))
    9 2 512 32 (PyExc.runtimeError oomNeedle) (Except.ok ())
    (by omega) rfl rfl

/-- C4: the probe distinguishes only memory-exhaustion failures, by
substring match.  First, an exception is treated as out-of-memory exactly
when it is a `RuntimeError` whose message contains "CUDA out of memory".
Second, every exception the probe propagates is such a non-memory
exception, re-raised unmodified from the attempt that raised it.  Third,
the probe never returns a size whose attempted pass raised a non-memory
error: a returned size either had a successful pass, or is the untouched
floor, in which case either no attempt ever ran (floor above cap) or the
floor's own attempt raised out-of-memory. -/
theorem probe_distinguishes_only_oom (att : Nat → StepOutcome)
    (fuel startBS maxBS step : Nat) :
    (∀ e : PyExc, isOOM e = true
      ↔ ∃ msg, e = PyExc.runtimeError msg
          ∧ strContains msg oomNeedle = true)
    ∧ (∀ e, find_max_batch_size att fuel startBS maxBS step
        = some (Except.error e) →
        ∃ n, startBS + n * step ≤ maxBS
          ∧ att (startBS + n * step) = StepOutcome.raise e
          ∧ isOOM e = false)
    ∧ (∀ v, find_max_batch_size att fuel startBS maxBS step
        = some (Except.ok v) →
        att v = StepOutcome.success
        ∨ (v = startBS
           ∧ (maxBS < startBS
              ∨ ∃ e, att startBS = StepOutcome.raise e
                  ∧ isOOM e = true))) := by
  refine ⟨?_, ?_, ?_⟩
  · intro e
    cases e with
    | runtimeError msg => simp [isOOM]
    | otherError msg => simp [isOOM]
  · intro e h
    obtain ⟨n, hlead, hcap, hraise, hoom⟩ :=
      probeLoop_error_char att maxBS step fuel startBS startBS e h
    exact ⟨n, hcap, hraise, hoom⟩
  · intro v h
    obtain ⟨n, hlead, hterm, hval⟩ :=
      probeLoop_ok_char att maxBS step fuel startBS startBS v h
    cases n with
    | zero =>
      simp only [if_pos rfl] at hval
      subst hval
      refine Or.inr ⟨rfl, ?_⟩
      rcases hterm with hover | ⟨hcap, e, hraise, hoomE⟩
      · exact Or.inl (by simpa using hover)
      · exact Or.inr ⟨e, by simpa using hraise, hoomE⟩
    | succ m =>
      have hvm : v = startBS + m * step := by simpa using hval
      have := (hlead m (by omega)).2
      rw [← hvm] at this
      exact Or.inl this

/-- Witness for C4: the exact needle message is recognized as
out-of-memory, via the first conjunct applied in reverse. -/
theorem probe_distinguishes_only_oom_witness :
    isOOM (PyExc.runtimeError oomNeedle) = true :=
  ((probe_distinguishes_only_oom (monoAttempt 1) 1 0 0 0).1
    (PyExc.runtimeError oomNeedle)).mpr ⟨oomNeedle, rfl, rfl⟩

/-- C5: the synthetic dataset is deterministic under a fixed seed.  Two
constructions of `DummyDataset` with the same `num_samples`,
`num_tokens`, `max_len` and `seed`, under arbitrary (possibly different)
prior states `g1`, `g2` of the global generator, produce identical
objects — `torch.manual_seed(seed)` replaces the global state — and
hence `__getitem__` returns equal dictionaries at every index. -/
theorem dummy_dataset_deterministic (next : Nat → Nat)
    (g1 g2 num_samples num_tokens max_len seed : Nat) :
    (DummyDataset.init next g1 num_samples num_tokens max_len seed).1
      = (DummyDataset.init next g2 num_samples num_tokens max_len seed).1
    ∧ ∀ idx : Nat,
      ((DummyDataset.init next g1 num_samples num_tokens max_len seed).1).getitem
          idx
        = ((DummyDataset.init next g2 num_samples num_tokens max_len
            seed).1).getitem idx :=
  ⟨rfl, fun _ => rfl⟩

/-- C6: process-group teardown happens on the success path only.  A run
of `find_max_batch_size` that returns normally (including via the
out-of-memory break) executes `destroy_process_group` exactly once, a run
that propagates an exception never executes it; likewise for `train`. -/
theorem teardown_on_success_only (att : Nat → StepOutcome)
    (fuel startBS maxBS step bs : Nat) (tres : Except PyExc Unit) :
    (∀ tr v, find_max_batch_size_run att fuel startBS maxBS step
        = some (tr, Except.ok v) → tr.count Phase.destroyPG = 1)
    ∧ (∀ tr e, find_max_batch_size_run att fuel startBS maxBS step
        = some (tr, Except.error e) → tr.count Phase.destroyPG = 0)
    ∧ ((trainRun bs tres).2 = Except.ok () →
        (trainRun bs tres).1.count Phase.destroyPG = 1)
    ∧ (∀ e, (trainRun bs tres).2 = Except.error e →
        (trainRun bs tres).1.count Phase.destroyPG = 0) := by
  refine ⟨?_, ?_, ?_, ?_⟩
  · intro tr v h
    unfold find_max_batch_size_run at h
    cases hp : probeLoop att maxBS step fuel startBS startBS with
    | none => rw [hp] at h; simp at h
    | some r =>
      rw [hp] at h
      cases r with
      | ok w =>
        simp at h
        rw [← h.1]
        rfl
      | error e => simp at h
  · intro tr e h
    unfold find_max_batch_size_run at h
    cases hp : probeLoop att maxBS step fuel startBS startBS with
    | none => rw [hp] at h; simp at h
    | some r =>
      rw [hp] at h
      cases r with
      | ok w => simp at h
      | error e2 =>
        simp at h
        rw [← h.1]
        rfl
  · intro h
    cases tres with
    | ok u => rfl
    | error e => simp [trainRun] at h
  · intro e h
    cases tres with
    | ok u => simp [trainRun] at h
    | error e2 => rfl

/-- Witness for C6: a concrete normally-returning probe run and a
normally-returning training run each record exactly one teardown. -/
theorem teardown_on_success_only_witness :
    ([Phase.initPG, Phase.initModel, Phase.probe,
        Phase.destroyPG].count Phase.destroyPG = 1)
    ∧ ((trainRun 2 (Except.ok ())).1.count Phase.destroyPG = 1) :=
  ⟨(teardown_on_success_only (monoAttempt 3) 10 1 5 1 2
      (Except.ok ())).1 _ 2 rfl,
   (teardown_on_success_only (monoAttempt 3) 10 1 5 1 2
      (Except.ok ())).2.2.1 rfl⟩

/-- C7: on the success path each spawned process executes exactly the
linear sequence: init process group, init model, probe loop, destroy
group, init group again, init model again, training loop, destroy
group. -/
theorem main_success_trace (att : Nat → StepOutcome)
    (fuel startBS maxBS step : Nat) (tres : Except PyExc Unit)
    (m : MainRun)
    (h : mainRun att fuel startBS maxBS step tres = some m)
    (hok : m.result = Except.ok ()) :
    m.trace = [Phase.initPG, Phase.initModel, Phase.probe,
      Phase.destroyPG, Phase.initPG, Phase.initModel, Phase.trainLoop,
      Phase.destroyPG] := by
  unfold mainRun find_max_batch_size_run at h
  cases hp : probeLoop att maxBS step fuel startBS startBS with
  | none => rw [hp] at h; simp at h
  | some r =>
    rw [hp] at h
    cases r with
    | error e =>
      simp at h
      rw [← h] at hok
      simp at hok
    | ok v =>
      cases tres with
      | error e =>
        simp [trainRun] at h
        rw [← h] at hok
        simp at hok
      | ok u =>
        simp [trainRun] at h
        rw [← h]

/-- Witness for C7: the concrete threshold-3 run with a normally
completing training loop produces exactly the eight-phase success
trace. -/
theorem main_success_trace_witness :
    (⟨[Phase.initPG, Phase.initModel, Phase.probe, Phase.destroyPG,
        Phase.initPG, Phase.initModel, Phase.trainLoop, Phase.destroyPG],
      some 2, Except.ok ()⟩ : MainRun).trace
      = [Phase.initPG, Phase.initModel, Phase.probe, Phase.destroyPG,
        Phase.initPG, Phase.initModel, Phase.trainLoop,
        Phase.destroyPG] :=
  main_success_trace (monoAttempt 3) 10 1 5 1 (Except.ok ())
    ⟨[Phase.initPG, Phase.initModel, Phase.probe, Phase.destroyPG,
        Phase.initPG, Phase.initModel, Phase.trainLoop, Phase.destroyPG],
      some 2, Except.ok ()⟩ rfl rfl

/-- C8: tensor shapes match the dataset configuration.  A dataset built
by `__init__` reports `num_samples` as its length, and at every in-range
index `__getitem__` yields a dictionary with exactly the keys
`input_ids`, `decoder_input_ids` and `labels`, each a row of length
`max_len` whose entries all lie in `[0, num_tokens)`. -/
theorem dummy_dataset_shapes (next : Nat → Nat)
    (g num_samples num_tokens max_len seed : Nat) (d : DummyDataset)
    (hd : d = (DummyDataset.init next g num_samples num_tokens max_len
      seed).1)
    (htok : 0 < num_tokens) :
    d.len = num_samples
    ∧ ∀ idx, idx < num_samples →
      (d.getitem idx).input_ids.length = max_len
      ∧ (d.getitem idx).decoder_input_ids.length = max_len
      ∧ (d.getitem idx).labels.length = max_len
      ∧ (∀ x ∈ (d.getitem idx).input_ids, x < num_tokens)
      ∧ (∀ x ∈ (d.getitem idx).decoder_input_ids, x < num_tokens)
      ∧ (∀ x ∈ (d.getitem idx).labels, x < num_tokens) := by
  subst hd
  refine ⟨rfl, ?_⟩
  intro idx hidx
  have hmat : ∀ gs : Nat,
      (randMatrix next num_tokens num_samples max_len gs).1.getD idx []
        ∈ (randMatrix next num_tokens num_samples max_len gs).1 := by
    intro gs
    apply getD_mem_of_lt
    rw [(randMatrix_spec next num_tokens htok num_samples max_len gs).1]
    exact hidx
  have hrow : ∀ gs : Nat,
      ((randMatrix next num_tokens num_samples max_len gs).1.getD idx
          []).length = max_len
      ∧ ∀ x ∈ (randMatrix next num_tokens num_samples max_len gs).1.getD
          idx [], x < num_tokens := by
    intro gs
    exact (randMatrix_spec next num_tokens htok num_samples max_len
      gs).2 _ (hmat gs)
  exact ⟨(hrow _).1, (hrow _).1, (hrow _).1,
    (hrow _).2, (hrow _).2, (hrow _).2⟩

/-- Witness for C8: a concrete 2-sample dataset with 3 tokens and rows of
length 2 has length 2 and a first item whose `input_ids` row has length
2. -/
theorem dummy_dataset_shapes_witness :
    ((DummyDataset.init (fun g => g + 1) 0 2 3 2 5).1).len = 2
    ∧ (((DummyDataset.init (fun g => g + 1) 0 2 3 2 5).1).getitem
        0).input_ids.length = 2 :=
  ⟨(dummy_dataset_shapes (fun g => g + 1) 0 2 3 2 5 _ rfl
      (by omega)).1,
   ((dummy_dataset_shapes (fun g => g + 1) 0 2 3 2 5 _ rfl
      (by omega)).2 0 (by omega)).1⟩

end FSDPWork
